import Mathlib

/-!
Verification development for the mc-mod-compat-check repository.

The Python sources under src/src/mc_mod_compat are embedded shallowly:
strings are processed as lists of characters, machine-width arithmetic is
Nat with explicit reduction modulo 2^32, floats (evidence confidence
weights, only ever compared) are rationals, raising code is modelled in
Except, and the file system / network / hashlib collaborators are explicit
function parameters.  Each definition cites the source file and lines it
embeds.
-/

namespace ModCompat

/-! ## Python string primitives (shared helpers)

Python text is modelled as List Char.  Character classes are expressed via
Char.toNat so that facts about them are plain Nat arithmetic.  The models
cover the ASCII behaviour the repository relies on; none of its inputs in
the claims use non-ASCII text.
-/

/-- Decimal-digit test, ASCII: the behaviour of Python regex d on the
repository's inputs. -/
def pyIsDigit (c : Char) : Bool := 48 ≤ c.toNat && c.toNat ≤ 57

/-- The six characters Python str.strip removes (space, tab, LF, CR, VT, FF). -/
def pyIsSpaceChar (c : Char) : Bool :=
  c.toNat = 32 || c.toNat = 9 || c.toNat = 10 || c.toNat = 13 ||
  c.toNat = 11 || c.toNat = 12

/-- Python str.strip: drop leading and trailing whitespace. -/
def pyStrip (l : List Char) : List Char :=
  ((l.dropWhile pyIsSpaceChar).reverse.dropWhile pyIsSpaceChar).reverse

/-- Python str.split(sep) for a one-character separator: consecutive
separators produce empty pieces and the result is never empty. -/
def splitOnChar (sep : Char) : List Char → List (List Char)
  | [] => [[]]
  | c :: rest =>
    let r := splitOnChar sep rest
    if c = sep then [] :: r
    else
      match r with
      | h :: t => (c :: h) :: t
      | [] => [[c]]

/-- Value of the leading run of decimal digits (the int(...) of the regex
match in McVersion._parse). -/
def digitRunVal (l : List Char) : Nat :=
  (l.takeWhile pyIsDigit).foldl (fun n c => n * 10 + (c.toNat - 48)) 0

/-- re.match(r"(d+)", part): some value when the text starts with a digit,
none otherwise (the AttributeError path of McVersion._parse). -/
def leadingDigitRun (l : List Char) : Option Nat :=
  match l with
  | [] => none
  | c :: _ => if pyIsDigit c then some (digitRunVal l) else none

/-- Python "needle in haystack" specialised to the two-character needle
".x" used by VersionRange._parse. -/
def containsDotX : List Char → Bool
  | [] => false
  | c :: rest =>
    (decide (c = '.') &&
      (match rest with
       | x :: _ => decide (x = 'x')
       | [] => false)) || containsDotX rest

/-- Python s.replace(".x", ""): remove every occurrence of ".x", scanning
left to right. -/
def stripDotX : List Char → List Char
  | [] => []
  | [c] => [c]
  | c :: x :: rest =>
    if c = '.' ∧ x = 'x' then stripDotX rest
    else c :: stripDotX (x :: rest)

/-- First character test (Python s.startswith(c) for one character). -/
def headIs (l : List Char) (c : Char) : Bool :=
  match l with
  | x :: _ => decide (x = c)
  | [] => false

/-- Two-character prefix test (Python s.startswith(ab)). -/
def startsWith2 (l : List Char) (a b : Char) : Bool :=
  match l with
  | x :: y :: _ => decide (x = a) && decide (y = b)
  | _ => false

/-- Last character test (Python s.endswith(c) for one character). -/
def lastIs (l : List Char) (c : Char) : Bool :=
  match l.getLast? with
  | some x => decide (x = c)
  | none => false

/-- Python str.lower, ASCII portion (the repository compares loader names
and reason texts, all ASCII). -/
def pyLower (s : String) : String := String.mk (s.data.map Char.toLower)

/-- List-prefix test used to model Python substring search. -/
def startsList : List Char → List Char → Bool
  | [], _ => true
  | _ :: _, [] => false
  | a :: as, b :: bs => decide (a = b) && startsList as bs

/-- Python "needle in haystack" for general needles. -/
def hasSub (needle : List Char) : List Char → Bool
  | [] => startsList needle []
  | s :: rest => startsList needle (s :: rest) || hasSub needle rest

/-- The ASCII apostrophe, written by code point. -/
def squote : Char := Char.ofNat 39

/-- Python str(list-of-str): single-quoted items, comma-space separated,
in brackets; used by the f-string reasons in online.py. -/
def pyReprStrList (xs : List String) : String :=
  "[" ++ String.intercalate ", "
    (xs.map (fun s => String.singleton squote ++ s ++ String.singleton squote)) ++ "]"

/-- Python fp.split("/")[-1] (pipeline.py line 46) and os.path.basename on
POSIX paths (local.py line 69, online.py line 84). -/
def pyBasename (fp : String) : String :=
  String.mk ((splitOnChar '/' fp.data).getLastD [])

/-- Python dict assignment d[k] = v on an insertion-ordered association
list: overwrite in place if the key exists, else append. -/
def dictInsert {α β : Type} [DecidableEq α] (k : α) (v : β) :
    List (α × β) → List (α × β)
  | [] => [(k, v)]
  | (k0, v0) :: rest =>
    if k0 = k then (k0, v) :: rest else (k0, v0) :: dictInsert k v rest

/-- Python dict lookup d.get(k). -/
def dictGet {α β : Type} [DecidableEq α] (d : List (α × β)) (k : α) : Option β :=
  match d with
  | [] => none
  | (k0, v0) :: rest => if k0 = k then some v0 else dictGet rest k

/-- Python set(file_paths) iterated: the distinct elements.  CPython's set
iteration order is unspecified; the model fixes first-occurrence order, and
every fact proved below about the pipeline is insensitive to that order. -/
def pydedupGo : List String → List String → List String
  | [], _ => []
  | x :: xs, seen => if x ∈ seen then pydedupGo xs seen else x :: pydedupGo xs (x :: seen)

/-- The distinct file paths, first occurrence first. -/
def pydedup (l : List String) : List String := pydedupGo l []

/-! ## core/hashing.py -/

/-- The MurmurHash2 magic multiplier (hashing.py line 18). -/
def mm_magic : Nat := 0x5bd1e995

/-- Reduction to 32 bits, Python's `& 0xFFFFFFFF`. -/
def mask32 (x : Nat) : Nat := x % 2 ^ 32

/-- The 4-byte main loop of murmurhash2 (hashing.py lines 23-39): little-endian
word, multiply-xor-shift-multiply, folded into the accumulator; returns the
accumulator and the unprocessed 0-3 byte tail. -/
def mm2_loop : List Nat → Nat → Nat × List Nat
  | b0 :: b1 :: b2 :: b3 :: rest, h =>
    let k := b0 ||| (b1 <<< 8) ||| (b2 <<< 16) ||| (b3 <<< 24)
    let k := mask32 (k * mm_magic)
    let k := k ^^^ (k >>> 24)
    let k := mask32 (k * mm_magic)
    let h := mask32 (h * mm_magic)
    let h := h ^^^ k
    let h := mask32 (h * mm_magic)
    mm2_loop rest h
  | tail, h => (h, tail)

/-- hashing.py murmurhash2 (lines 14-53), embedded byte for byte.  Note the
tail handling (lines 41-47) is three independent `if length == n` tests: for
a 3-byte tail only `data[idx+2] << 16` is folded and no tail multiply runs,
and for a 2-byte tail only `data[idx+1] << 8` is folded, again with no
multiply. -/
def murmurhash2 (data : List Nat) (seed : Nat) : Nat :=
  let h0 := seed ^^^ data.length
  let hl := mm2_loop data h0
  let h := hl.1
  let tail := hl.2
  let len := tail.length
  let h := if len = 3 then h ^^^ ((tail.getD 2 0) <<< 16) else h
  let h := if len = 2 then h ^^^ ((tail.getD 1 0) <<< 8) else h
  let h := if len = 1 then mask32 ((h ^^^ tail.getD 0 0) * mm_magic) else h
  let h := h ^^^ (h >>> 13)
  let h := mask32 (h * mm_magic)
  h ^^^ (h >>> 15)

/-- Reference tail folding of 32-bit MurmurHash2 as the claim states it: the
cascading switch cases 3, 2, 1 each fold their byte and a multiply by the
magic follows (C fallthrough semantics). -/
def murmur2ReferenceTail (tail : List Nat) (h : Nat) : Nat :=
  match tail with
  | [] => h
  | [b0] => mask32 ((h ^^^ b0) * mm_magic)
  | [b0, b1] => mask32 ((h ^^^ (b1 <<< 8) ^^^ b0) * mm_magic)
  | [b0, b1, b2] => mask32 ((h ^^^ (b2 <<< 16) ^^^ (b1 <<< 8) ^^^ b0) * mm_magic)
  | _ => h

/-- Reference 32-bit MurmurHash2 per the claim: identical word phase and
final 13/15-bit mixing, with the standard cascading tail. -/
def murmur2Reference (data : List Nat) (seed : Nat) : Nat :=
  let h0 := seed ^^^ data.length
  let hl := mm2_loop data h0
  let h := murmur2ReferenceTail hl.2 hl.1
  let h := h ^^^ (h >>> 13)
  let h := mask32 (h * mm_magic)
  h ^^^ (h >>> 15)

/-- The four whitespace bytes removed by compute_curseforge_hash
(hashing.py line 64: content.translate(None, tab LF CR space)). -/
def pyFilterWs (content : List Nat) : List Nat :=
  content.filter (fun b => !(b == 9 || b == 10 || b == 13 || b == 32))

/-- hashing.py compute_sha1 (lines 4-12): opens and reads the file with no
exception handling, so an unreadable file raises out of the function.  The
SHA-1 digest itself is hashlib's (an external collaborator), abstracted as
the function parameter sha1fn; the file system is the partial map fs. -/
def compute_sha1 (sha1fn : List Nat → String) (fs : String → Option (List Nat))
    (file_path : String) : Except Unit String :=
  match fs file_path with
  | none => Except.error ()
  | some content => Except.ok (sha1fn content)

/-- hashing.py compute_curseforge_hash (lines 55-67): whitespace-filtered
murmurhash2 with seed 1; any failure (unreadable file) is caught and the
sentinel 0 returned. -/
def compute_curseforge_hash (fs : String → Option (List Nat))
    (file_path : String) : Nat :=
  match fs file_path with
  | none => 0
  | some content => murmurhash2 (pyFilterWs content) 1

/-! ## core/version_range.py McVersion -/

/-- McVersion (version_range.py lines 4-61): the comparable numeric triple.
The stored original string takes no part in parsing, comparison or range
checking, so it is not modelled. -/
structure McVersion where
  major : Nat
  minor : Nat
  patch : Nat
deriving DecidableEq, Repr

/-- McVersion.__init__ plus _parse (lines 9-36): strip, drop one leading
v or V, split on dots, and read each of the first three parts' leading
digit run (0 when the part is missing or starts with a non-digit). -/
def mcVersionOfChars (l : List Char) : McVersion :=
  let s := pyStrip l
  let s :=
    match s with
    | c :: rest => if c = 'v' ∨ c = 'V' then rest else c :: rest
    | [] => []
  let parts := splitOnChar '.' s
  { major := (leadingDigitRun (parts.getD 0 [])).getD 0
    minor := (leadingDigitRun (parts.getD 1 [])).getD 0
    patch := (leadingDigitRun (parts.getD 2 [])).getD 0 }

/-- McVersion(version_str) on a Python str. -/
def McVersion.parse (s : String) : McVersion := mcVersionOfChars s.data

/-- McVersion.__eq__ (lines 44-47): triple equality. -/
def mc_eq (a b : McVersion) : Bool :=
  decide (a.major = b.major) && decide (a.minor = b.minor) && decide (a.patch = b.patch)

/-- McVersion.__lt__ (lines 49-52): Python tuple comparison, lexicographic. -/
def mc_lt (a b : McVersion) : Bool :=
  decide (a.major < b.major) ||
  (decide (a.major = b.major) &&
    (decide (a.minor < b.minor) ||
      (decide (a.minor = b.minor) && decide (a.patch < b.patch))))

/-- McVersion.__le__ (lines 54-55): self < other or self == other. -/
def mc_le (a b : McVersion) : Bool := mc_lt a b || mc_eq a b

/-- McVersion.__gt__ (lines 57-58): not (self <= other). -/
def mc_gt (a b : McVersion) : Bool := !mc_le a b

/-- McVersion.__ge__ (lines 60-61): not (self < other). -/
def mc_ge (a b : McVersion) : Bool := !mc_lt a b

/-! ## core/version_range.py VersionRange -/

/-- VersionRange state after __init__ (lines 73-79): optional bounds and
their inclusivity, defaults min_inclusive = true, max_inclusive = false. -/
structure VersionRange where
  min_ver : Option McVersion
  max_ver : Option McVersion
  min_inclusive : Bool
  max_inclusive : Bool
deriving DecidableEq, Repr

/-- VersionRange._parse (lines 81-150) on the stripped range text.  The
wildcard branch writes its upper bound through an f-string that is re-parsed;
decimal formatting followed by leading-digit parsing is the identity, so the
model states the resulting triple directly. -/
def vr_parse (s : List Char) : VersionRange :=
  if s = [] then
    -- line 83: empty text leaves the defaults, no bound on either side
    ⟨none, none, true, false⟩
  else if containsDotX s then
    -- lines 87-103: wildcard
    let base := stripDotX s
    let mn := mcVersionOfChars base
    let mx :=
      if mn.patch = 0 ∧ (splitOnChar '.' base).length = 2 then
        { major := mn.major, minor := mn.minor + 1, patch := 0 : McVersion }
      else
        { major := mn.major, minor := mn.minor, patch := mn.patch + 1 : McVersion }
    ⟨some mn, some mx, true, false⟩
  else if (headIs s '[' || headIs s '(') && (lastIs s ']' || lastIs s ')') then
    -- lines 106-119: interval
    let min_inc := headIs s '['
    let max_inc := lastIs s ']'
    let content := (s.drop 1).dropLast
    let parts := splitOnChar ',' content
    match parts with
    | [p0, p1] =>
      let v1 := pyStrip p0
      let v2 := pyStrip p1
      { min_ver := if v1 ≠ [] then some (mcVersionOfChars v1) else none
        max_ver := if v2 ≠ [] then some (mcVersionOfChars v2) else none
        min_inclusive := min_inc
        max_inclusive := max_inc }
    | [p0] =>
      let u := mcVersionOfChars (pyStrip p0)
      ⟨some u, some u, min_inc, max_inc⟩
    | _ => ⟨none, none, min_inc, max_inc⟩
  else if startsWith2 s '>' '=' then
    -- lines 122-125
    ⟨some (mcVersionOfChars (s.drop 2)), none, true, false⟩
  else if headIs s '>' then
    -- lines 126-129
    ⟨some (mcVersionOfChars (s.drop 1)), none, false, false⟩
  else if startsWith2 s '<' '=' then
    -- lines 130-133
    ⟨none, some (mcVersionOfChars (s.drop 2)), true, true⟩
  else if headIs s '<' then
    -- lines 134-137
    ⟨none, some (mcVersionOfChars (s.drop 1)), true, false⟩
  else
    -- lines 139-150: plain text is an exact, both-inclusive range
    let u := mcVersionOfChars s
    ⟨some u, some u, true, true⟩

/-- VersionRange(range_str): __init__ strips the text before parsing. -/
def parse_version_range (range_str : String) : VersionRange :=
  vr_parse (pyStrip range_str.data)

/-- The in-range accumulator of VersionRange.contains (lines 159-170):
the second test only runs when the first kept in_range true, which the
short-circuit conjunction reproduces. -/
def vr_in_range (r : VersionRange) (v : McVersion) : Bool :=
  (match r.min_ver with
   | some mn => if r.min_inclusive then !mc_lt v mn else !mc_le v mn
   | none => true) &&
  (match r.max_ver with
   | some mx => if r.max_inclusive then !mc_gt v mx else !mc_ge v mx
   | none => true)

/-- The relaxed fallback of VersionRange.contains (lines 176-182): only
when both bounds exist and are equal, accept on matching major and minor. -/
def vr_relaxed_chk (r : VersionRange) (v : McVersion) : Bool :=
  match r.min_ver, r.max_ver with
  | some mn, some mx =>
    mc_eq mn mx && decide (v.major = mn.major) && decide (v.minor = mn.minor)
  | _, _ => false

/-- VersionRange.contains (lines 152-184) on an already-parsed version. -/
def contains (r : VersionRange) (v : McVersion) (relaxed : Bool) : Bool :=
  if vr_in_range r v then true
  else if relaxed then (if vr_relaxed_chk r v then true else false)
  else false

/-- VersionRange.contains on a Python str argument (lines 153-154). -/
def contains_str (r : VersionRange) (version : String) (relaxed : Bool) : Bool :=
  contains r (McVersion.parse version) relaxed

/-! ## common.py -/

/-- CheckStatus (common.py lines 23-32). -/
inductive CheckStatus where
  | ok
  | wrong_mc
  | wrong_loader
  | unknown_loader
  | not_found
  | network_error
  | unknown
  | skipped
deriving DecidableEq, Repr

/-- SupportLevel (common.py lines 34-39). -/
inductive SupportLevel where
  | confirmed
  | likely
  | possible
  | unsupported
  | unknown
deriving DecidableEq, Repr

/-- The confidence weight 0.3, as an already-normalized rational (the
kernel evaluates these without rational normalization). -/
def conf03 : ℚ := ⟨3, 10, by decide, by decide⟩

/-- The confidence weight 0.4. -/
def conf04 : ℚ := ⟨2, 5, by decide, by decide⟩

/-- The confidence weight 0.5. -/
def conf05 : ℚ := ⟨1, 2, by decide, by decide⟩

/-- The confidence weight 0.6. -/
def conf06 : ℚ := ⟨3, 5, by decide, by decide⟩

/-- The confidence weight 0.8. -/
def conf08 : ℚ := ⟨4, 5, by decide, by decide⟩

/-- Evidence (common.py lines 41-46).  The float confidence weight is only
ever created from decimal literals and compared, so it is embedded as a
rational. -/
structure Evidence where
  source : String
  confidence : ℚ
  level : SupportLevel
  reason : String
deriving DecidableEq, Repr

/-- ModCheckResult (common.py lines 48-59) with its dataclass defaults. -/
structure ModCheckResult where
  file_name : String
  file_path : String
  status : CheckStatus
  reason : String
  source : String := "unknown"
  mod_name : Option String := none
  mod_version : Option String := none
  url : Option String := none
  level : SupportLevel := SupportLevel.unknown
  evidence : List Evidence := []
deriving DecidableEq, Repr

/-- LOADER_COMPAT (common.py lines 14-19) combined with the .get(k, default
singleton) access pattern of its call sites. -/
def LOADER_COMPAT (k : String) : List String :=
  if k = "fabric" then ["fabric", "quilt"]
  else if k = "quilt" then ["quilt", "fabric"]
  else if k = "forge" then ["forge", "neoforge"]
  else if k = "neoforge" then ["neoforge", "forge"]
  else [k]

/-! ## checker/evaluator.py -/

/-- Stable insertion into a confidence-descending list: an existing item
keeps its place unless its confidence is strictly smaller.  This is the
ordering Python's stable sorted(key=confidence, reverse=True) produces
(evaluator.py line 16). -/
def insertDesc (e : Evidence) : List Evidence → List Evidence
  | [] => [e]
  | y :: ys => if y.confidence > e.confidence then y :: insertDesc e ys else e :: y :: ys

/-- sorted(evidences, key=confidence, reverse=True): stable descending sort. -/
def pySortDesc : List Evidence → List Evidence
  | [] => []
  | x :: xs => insertDesc x (pySortDesc xs)

/-- Placeholder record for the total headD; evaluate only reads the head of
a list proved non-empty (evaluator.py line 23 indexes [0] under the
emptiness guard of line 6). -/
def dummyEvidence : Evidence := ⟨"", 0, SupportLevel.unknown, ""⟩

/-- The SupportLevel → CheckStatus mapping of evaluator.py lines 29-42,
also inlined in local.py lines 60-66 and online.py lines 75-81: positive
levels collapse to ok, and unsupported is split on whether the winning
reason mentions "loader". -/
def status_of (best : Evidence) : CheckStatus :=
  if best.level = SupportLevel.confirmed then CheckStatus.ok
  else if best.level = SupportLevel.likely then CheckStatus.ok
  else if best.level = SupportLevel.possible then CheckStatus.ok
  else if best.level = SupportLevel.unsupported then
    (if hasSub "loader".data (pyLower best.reason).data then CheckStatus.wrong_loader
     else CheckStatus.wrong_mc)
  else CheckStatus.unknown

/-- Evaluator.evaluate (evaluator.py lines 5-52): empty evidence gives the
Unknown verdict; otherwise the highest-confidence item (stable sort, so the
first such item) supplies status, reason, source and level, and the verdict
carries the original, untruncated evidence list. -/
def evaluate (file_path : String) (evidences : List Evidence) (file_name : String) :
    ModCheckResult :=
  if evidences = [] then
    { file_name := file_name, file_path := file_path, status := CheckStatus.unknown
      reason := "No evidence found", level := SupportLevel.unknown }
  else
    let sorted_evidences := pySortDesc evidences
    let best := sorted_evidences.headD dummyEvidence
    { file_name := file_name, file_path := file_path, status := status_of best
      reason := best.reason, source := best.source, level := best.level
      evidence := evidences }

/-- Claim-side characterization of the stable sort's head: the first
element of maximal confidence (a later element replaces the current best
only when strictly more confident). -/
def firstMaxD (e : Evidence) : List Evidence → Evidence
  | [] => e
  | x :: xs =>
    let m := firstMaxD x xs
    if m.confidence > e.confidence then m else e

/-! ## checker/base.py and checker/pipeline.py -/

/-- The target arguments every strategy call threads through unchanged:
target_mc, expected_loader and relaxed. -/
structure Ctx where
  target_mc : String
  expected_loader : Option String
  relaxed : Bool

/-- A configured strategy as the pipeline consumes it (base.py lines 5-33):
its verify and collect_evidence methods, with the target / loader / relaxed
arguments bundled.  Both shipped strategies use the inherited batch_verify,
which loops verify. -/
structure StrategyM where
  verify : String → Ctx → Option ModCheckResult
  collect_evidence : String → Ctx → List Evidence

/-- The body of the batch_verify loop (base.py lines 21-24): record the
verify result when there is one. -/
def bv_step (s : StrategyM) (ctx : Ctx) (results : List (String × ModCheckResult))
    (fp : String) : List (String × ModCheckResult) :=
  match s.verify fp ctx with
  | some res => dictInsert fp res results
  | none => results

/-- VerificationStrategy.batch_verify (base.py lines 15-25): loop verify
over the batch, recording into an insertion-ordered dict the files whose
verify returned a result. -/
def batch_verify (s : StrategyM) (file_paths : List String) (ctx : Ctx) :
    List (String × ModCheckResult) :=
  file_paths.foldl (bv_step s ctx) []

/-- VerificationStrategy.batch_collect_evidence (base.py lines 27-33): loop
collect_evidence, keeping only non-empty evidence lists. -/
def batch_collect_evidence (s : StrategyM) (file_paths : List String) (ctx : Ctx) :
    List (String × List Evidence) :=
  file_paths.foldl
    (fun results fp =>
      match s.collect_evidence fp ctx with
      | [] => results
      | evs => dictInsert fp evs results)
    []

/-- The Unknown result pipeline.py lines 45-50 appends for a file no
strategy resolved. -/
def unknown_result (fp : String) : ModCheckResult :=
  { file_name := pyBasename fp, file_path := fp, status := CheckStatus.unknown
    reason := "all_strategies_failed" }

/-- The per-strategy result loop of CheckerPipeline.check_files (pipeline.py
lines 32-40): accept every result whose status is not UNKNOWN into
final_results and drop its file from the pending set. -/
def apply_results (acc : List (String × ModCheckResult) × List String)
    (entries : List (String × ModCheckResult)) :
    List (String × ModCheckResult) × List String :=
  entries.foldl
    (fun acc2 pr =>
      if pr.2.status = CheckStatus.unknown then acc2
      else (dictInsert pr.1 pr.2 acc2.1, acc2.2.erase pr.1))
    acc

/-- One iteration of the strategy loop of check_files (pipeline.py lines
20-40): stop early when nothing is pending (the break of line 22), else run
the strategy's batch_verify on the pending files and fold its results in. -/
def pipeline_step (ctx : Ctx) (acc : List (String × ModCheckResult) × List String)
    (strat : StrategyM) : List (String × ModCheckResult) × List String :=
  if acc.2 = [] then acc
  else apply_results acc (batch_verify strat acc.2 ctx)

/-- CheckerPipeline.check_files (pipeline.py lines 10-52): strategies run in
order over the files still pending; a non-Unknown result retires its file
from the later strategies' batches, and whatever is still pending at the end
is reported as Unknown.  The pending set is modelled as a duplicate-free
list (see pydedup); all facts proved below are insensitive to its order. -/
def check_files (strategies : List StrategyM) (file_paths : List String) (ctx : Ctx) :
    List ModCheckResult :=
  let init : List (String × ModCheckResult) × List String := ([], pydedup file_paths)
  let final := strategies.foldl (pipeline_step ctx) init
  final.1.map Prod.snd ++ final.2.map unknown_result

/-- The strategy resolves every path of the list with a non-Unknown result
(the hypothesis under which the pipeline's short-circuit is total). -/
def acceptsAll (s : StrategyM) (paths : List String) (ctx : Ctx) : Bool :=
  paths.all
    (fun p =>
      match s.verify p ctx with
      | some r => decide (r.status ≠ CheckStatus.unknown)
      | none => false)

/-- Claim-side model of the batch pipeline as the spec describes it: every
configured strategy contributes evidence for every artifact of the batch,
the per-artifact evidence is merged across all strategies, and only then is
each artifact's merged list evaluated independently. -/
def spec_checkBatch (strategies : List StrategyM) (file_paths : List String) (ctx : Ctx) :
    List ModCheckResult :=
  file_paths.map
    (fun fp =>
      let merged := strategies.foldl (fun acc s => acc ++ s.collect_evidence fp ctx) []
      evaluate fp merged (pyBasename fp))

/-! ## checker/local.py and checker/online.py verify

Both concrete strategies derive verify from collect_evidence the same way
(local.py lines 51-76, online.py lines 66-91): no evidence means no result,
otherwise the highest-confidence item is mapped exactly as the Evaluator
maps it. -/

/-- The shared verify body of the two shipped strategies. -/
def verify_from_evidences (file_path : String) (evidences : List Evidence) :
    Option ModCheckResult :=
  match evidences with
  | [] => none
  | _ :: _ =>
    let best := (pySortDesc evidences).headD dummyEvidence
    some
      { file_name := pyBasename file_path, file_path := file_path
        status := status_of best, reason := best.reason, source := best.source
        level := best.level, evidence := evidences }

/-- A strategy built from an evidence collector the way the shipped
strategies are (collect_evidence drives verify). -/
def strategyOfCollect (ce : String → Ctx → List Evidence) : StrategyM :=
  { verify := fun fp ctx => verify_from_evidences fp (ce fp ctx)
    collect_evidence := ce }

/-! ## checker/online.py

The two catalog clients and hashlib are external collaborators carried as
function parameters; a network call that raises is an Except.error, which
the strategy's try blocks turn into "skip this phase". -/

/-- The Modrinth version data the strategy reads (api response fields
game_versions and loaders). -/
structure MrVersionData where
  game_versions : List String
  loaders : List String
deriving DecidableEq, Repr

/-- The CurseForge match data the strategy reads (api response field
gameVersions, mixing version and loader tokens). -/
structure CfMatchData where
  gameVersions : List String
deriving DecidableEq, Repr

/-- online.py _process_modrinth_evidence (lines 93-127). -/
def process_modrinth_evidence (data : MrVersionData) (target_mc : String)
    (expected_loader : Option String) : List Evidence :=
  let evs : List Evidence :=
    [⟨"modrinth", conf05, SupportLevel.unknown,
      "Found on Modrinth, version/loader mismatch or unlisted"⟩]
  let evs :=
    if target_mc ∈ data.game_versions then
      evs ++ [⟨"modrinth", 1, SupportLevel.confirmed,
        "Modrinth lists version " ++ target_mc⟩]
    else evs
  match expected_loader with
  | none => evs
  | some el =>
    let compat := LOADER_COMPAT (pyLower el)
    let mod_loaders := data.loaders.map pyLower
    if !(mod_loaders.any (fun l => decide (l ∈ compat))) then
      evs ++ [⟨"modrinth", 1, SupportLevel.unsupported,
        "Modrinth lists loaders " ++ pyReprStrList data.loaders ++ ", expected " ++ el⟩]
    else evs

/-- Python v[0].isdigit(): raises IndexError on an empty token. -/
def strHeadIsDigit (v : String) : Except Unit Bool :=
  match v.data with
  | [] => Except.error ()
  | c :: _ => Except.ok (pyIsDigit c)

/-- online.py _process_curseforge_evidence (lines 129-161); the token
classification v[0].isdigit() can raise, which the caller's try block
swallows. -/
def process_curseforge_evidence (data : CfMatchData) (target_mc : String)
    (expected_loader : Option String) : Except Unit (List Evidence) := do
  let mc_vers ← data.gameVersions.foldlM
    (fun acc v => do
      let d ← strHeadIsDigit v
      pure (if d then acc ++ [v] else acc))
    []
  let evs : List Evidence :=
    [⟨"curseforge", conf04, SupportLevel.unknown,
      "Found on CurseForge, version/loader mismatch or unlisted"⟩]
  let evs :=
    if target_mc ∈ mc_vers then
      evs ++ [⟨"curseforge", conf08, SupportLevel.confirmed,
        "CurseForge lists version " ++ target_mc⟩]
    else evs
  match expected_loader with
  | none => pure evs
  | some el => do
    let compat := LOADER_COMPAT (pyLower el)
    let mod_loaders ← data.gameVersions.foldlM
      (fun acc v => do
        let d ← strHeadIsDigit v
        pure (if d then acc else acc ++ [pyLower v]))
      []
    if mod_loaders ≠ [] then
      if !(mod_loaders.any (fun l => decide (l ∈ compat))) then
        pure (evs ++ [⟨"curseforge", conf08, SupportLevel.unsupported,
          "CurseForge lists loaders " ++ pyReprStrList mod_loaders ++ ", expected " ++ el⟩])
      else pure evs
    else pure evs

/-- results[fp].extend(evs) on the insertion-ordered results dict. -/
def dictExtend (d : List (String × List Evidence)) (k : String) (vs : List Evidence) :
    List (String × List Evidence) :=
  d.map (fun kv => if kv.1 = k then (kv.1, kv.2 ++ vs) else kv)

/-- The CurseForge result loop of online.py lines 56-60, run inside the try
of line 46: an exception raised while processing one match keeps the
mutations already applied and abandons the rest of the loop. -/
def cf_loop (cf_results : List (Nat × CfMatchData)) (fp_map : List (Nat × String))
    (results : List (String × List Evidence)) (target_mc : String)
    (expected_loader : Option String) : List (String × List Evidence) :=
  match cf_results with
  | [] => results
  | (fid, md) :: rest =>
    match dictGet fp_map fid with
    | some fp =>
      match process_curseforge_evidence md target_mc expected_loader with
      | Except.error _ => results
      | Except.ok evs =>
        cf_loop rest fp_map (dictExtend results fp evs) target_mc expected_loader
    | none => cf_loop rest fp_map results target_mc expected_loader

/-- OnlineVerificationStrategy.batch_collect_evidence (online.py lines
18-64).  The sha1 loop of lines 22-25 calls compute_sha1 outside any try
block, so one unreadable file raises out of the whole batch; the two
catalog lookups are each wrapped in try/except pass. -/
def online_batch_collect_evidence
    (sha1fn : List Nat → String)
    (mr_lookup : List String → Except Unit (List (String × MrVersionData)))
    (cf_lookup : Option (List Nat → Except Unit (List (Nat × CfMatchData))))
    (fs : String → Option (List Nat))
    (file_paths : List String) (target_mc : String)
    (expected_loader : Option String) (relaxed : Bool) :
    Except Unit (List (String × List Evidence)) := do
  -- line 19: results = {fp: [] for fp in file_paths}
  let results0 : List (String × List Evidence) :=
    (pydedup file_paths).map (fun fp => (fp, []))
  -- lines 22-25: the sha1 map; compute_sha1 may raise, uncaught
  let sha1_map ← file_paths.foldlM
    (fun m fp => do
      let s ← compute_sha1 sha1fn fs fp
      pure (dictInsert s fp m))
    ([] : List (String × String))
  let hashes := sha1_map.map Prod.fst
  -- lines 30-40: Modrinth phase, try/except pass around the lookup
  let mrPhase :=
    if hashes = [] then (results0, ([] : List String))
    else
      match mr_lookup hashes with
      | Except.error _ => (results0, [])
      | Except.ok mr_results =>
        mr_results.foldl
          (fun acc hv =>
            match dictGet sha1_map hv.1 with
            | some fp =>
              (dictExtend acc.1 fp
                (process_modrinth_evidence hv.2 target_mc expected_loader),
               fp :: acc.2)
            | none => acc)
          (results0, [])
  let results1 := mrPhase.1
  let found_in_mr := mrPhase.2
  -- lines 43-62: CurseForge phase for the files Modrinth did not match
  let remaining_paths := file_paths.filter (fun fp => !(found_in_mr.contains fp))
  let results2 :=
    match cf_lookup with
    | none => results1
    | some cf =>
      if remaining_paths = [] then results1
      else
        let fp_map := remaining_paths.foldl
          (fun m fp =>
            let f := compute_curseforge_hash fs fp
            if f > 0 then dictInsert f fp m else m)
          []
        let fingerprints := fp_map.map Prod.fst
        if fingerprints = [] then results1
        else
          match cf fingerprints with
          | Except.error _ => results1
          | Except.ok cf_results =>
            cf_loop cf_results fp_map results1 target_mc expected_loader
  pure results2

/-! ## Concrete instances used by the claims' witnesses and counterexamples -/

/-- A concrete target: version 1.20.1, no expected loader, strict mode. -/
def ctx0 : Ctx := ⟨"1.20.1", none, false⟩

/-- Catalog evidence: confirmed at middling confidence. -/
def ev_mr_c1 : Evidence :=
  ⟨"modrinth", conf05, SupportLevel.confirmed, "Modrinth lists version 1.20.1"⟩

/-- Local metadata evidence: unsupported at higher confidence. -/
def ev_meta_c1 : Evidence :=
  ⟨"local_metadata", conf06, SupportLevel.unsupported, "Fabric metadata requires: [1.19.x]"⟩

/-- A first pipeline strategy that always finds ev_mr_c1. -/
def strat1_c1 : StrategyM := strategyOfCollect (fun _ _ => [ev_mr_c1])

/-- A second pipeline strategy that always finds ev_meta_c1. -/
def strat2_c1 : StrategyM := strategyOfCollect (fun _ _ => [ev_meta_c1])

/-- A strategy that resolves nothing (both catalogs miss, archive unreadable). -/
def noneStrat : StrategyM := ⟨fun _ _ => none, fun _ _ => []⟩

/-- Confirmed at confidence 1.0 (the spec's Confirmed@1.0). -/
def ev_confirmed10 : Evidence :=
  ⟨"modrinth", 1, SupportLevel.confirmed, "Modrinth lists version 1.20.1"⟩

/-- Possible at confidence 0.6 (the spec's Possible@0.6). -/
def ev_possible06 : Evidence :=
  ⟨"local_metadata", conf06, SupportLevel.possible, "Fabric metadata matches"⟩

/-- Confirmed at confidence 1.0 from one source (tied with ev_unsup10). -/
def ev_conf_tie : Evidence :=
  ⟨"modrinth", 1, SupportLevel.confirmed, "Modrinth lists version 1.20.1"⟩

/-- Unsupported at the same confidence 1.0 from another source. -/
def ev_unsup10 : Evidence :=
  ⟨"curseforge", 1, SupportLevel.unsupported, "CurseForge lists versions [1.19.2]"⟩

/-- A readable file and an unreadable one: the file system for the C4 run. -/
def fs_c4 : String → Option (List Nat) :=
  fun p => if p = "good.jar" then some [80, 75, 3, 4] else none

/-- An abstract stand-in for hashlib.sha1's hex digest. -/
def sha1fn0 : List Nat → String := fun _ => "da39a3ee"

/-- A Modrinth client whose batch lookup succeeds with no matches. -/
def mr_lookup0 : List String → Except Unit (List (String × MrVersionData)) :=
  fun _ => Except.ok []

/-- The file system for the C3 run: a two-byte file with no whitespace. -/
def fs_c3 : String → Option (List Nat) :=
  fun p => if p = "ab.bin" then some [97, 98] else none

/-! ## Helper lemmas: version comparison and containment -/

theorem mc_eq_iff (a b : McVersion) : mc_eq a b = true ↔ a = b := by
  cases a with
  | mk am an ap =>
    cases b with
    | mk bm bn bp =>
      simp [mc_eq, McVersion.mk.injEq, Bool.and_eq_true, decide_eq_true_eq, and_assoc]

theorem contains_false_eq (r : VersionRange) (v : McVersion) :
    contains r v false = vr_in_range r v := by
  cases h : vr_in_range r v <;> simp [contains, h]

theorem contains_true_eq (r : VersionRange) (v : McVersion) :
    contains r v true = (vr_in_range r v || vr_relaxed_chk r v) := by
  cases h : vr_in_range r v <;> cases h2 : vr_relaxed_chk r v <;>
    simp [contains, h, h2]

theorem relaxed_chk_iff (r : VersionRange) (v : McVersion) :
    vr_relaxed_chk r v = true ↔
      ∃ u, r.min_ver = some u ∧ r.max_ver = some u ∧
        u.major = v.major ∧ u.minor = v.minor := by
  cases hmin : r.min_ver with
  | none => simp [vr_relaxed_chk, hmin]
  | some mn =>
    cases hmax : r.max_ver with
    | none => simp [vr_relaxed_chk, hmin, hmax]
    | some mx =>
      simp only [vr_relaxed_chk, hmin, hmax, Bool.and_eq_true, decide_eq_true_eq,
        mc_eq_iff, Option.some.injEq]
      constructor
      · rintro ⟨⟨hmnmx, hmaj⟩, hminr⟩
        exact ⟨mn, rfl, hmnmx.symm, hmaj.symm, hminr.symm⟩
      · rintro ⟨u, hu, hxu, hmaj, hminr⟩
        subst hu
        exact ⟨⟨hxu.symm, hmaj.symm⟩, hminr.symm⟩

/-! ## Helper lemmas: the Evaluator's stable sort -/

theorem insertDesc_ne_nil (e : Evidence) (l : List Evidence) : insertDesc e l ≠ [] := by
  cases l with
  | nil => simp [insertDesc]
  | cons y ys =>
    simp only [insertDesc]
    split <;> simp

theorem headD_insertDesc_cons (e d y : Evidence) (ys : List Evidence) :
    (insertDesc e (y :: ys)).headD d =
      if y.confidence > e.confidence then y else e := by
  simp only [insertDesc]
  split <;> rfl

theorem pySortDesc_head (d e : Evidence) (l : List Evidence) :
    (pySortDesc (e :: l)).headD d = firstMaxD e l := by
  induction l generalizing e with
  | nil => rfl
  | cons x xs ih =>
    obtain ⟨y, ys, hys⟩ : ∃ y ys, insertDesc x (pySortDesc xs) = y :: ys := by
      cases h : insertDesc x (pySortDesc xs) with
      | nil => exact absurd h (insertDesc_ne_nil _ _)
      | cons y ys => exact ⟨y, ys, rfl⟩
    have hy : y = firstMaxD x xs := by
      have hx := ih x
      rw [show pySortDesc (x :: xs) = insertDesc x (pySortDesc xs) from rfl, hys] at hx
      simpa using hx
    rw [show pySortDesc (e :: x :: xs) = insertDesc e (insertDesc x (pySortDesc xs))
        from rfl, hys, headD_insertDesc_cons, hy]
    simp only [firstMaxD]

theorem firstMaxD_mem (e : Evidence) (l : List Evidence) : firstMaxD e l ∈ e :: l := by
  induction l generalizing e with
  | nil => simp [firstMaxD]
  | cons x xs ih =>
    simp only [firstMaxD]
    split
    · have hx := ih x
      simp only [List.mem_cons] at hx ⊢
      tauto
    · simp

theorem firstMaxD_le (e : Evidence) (l : List Evidence) :
    ∀ a ∈ e :: l, a.confidence ≤ (firstMaxD e l).confidence := by
  induction l generalizing e with
  | nil =>
    intro a ha
    simp only [List.mem_cons, List.not_mem_nil, or_false] at ha
    subst ha
    exact le_refl _
  | cons x xs ih =>
    intro a ha
    simp only [firstMaxD]
    rcases List.mem_cons.1 ha with rfl | ha2
    · split
      · next h => exact le_of_lt h
      · exact le_refl _
    · have hrec := ih x a ha2
      split
      · exact hrec
      · next h => exact le_trans hrec (not_lt.mp h)

theorem evaluate_cons (fp fn : String) (e : Evidence) (rest : List Evidence) :
    evaluate fp (e :: rest) fn =
      { file_name := fn, file_path := fp, status := status_of (firstMaxD e rest)
        reason := (firstMaxD e rest).reason, source := (firstMaxD e rest).source
        level := (firstMaxD e rest).level, evidence := e :: rest } := by
  simp only [evaluate, if_neg (List.cons_ne_nil e rest), pySortDesc_head]

/-! ## Helper lemmas: the pending set and the result dict -/

theorem mem_pydedupGo (x : String) :
    ∀ (l seen : List String), x ∈ pydedupGo l seen ↔ x ∈ l ∧ x ∉ seen := by
  intro l
  induction l with
  | nil => intro seen; simp [pydedupGo]
  | cons y ys ih =>
    intro seen
    by_cases hy : y ∈ seen
    · rw [show pydedupGo (y :: ys) seen = pydedupGo ys seen by simp [pydedupGo, hy], ih]
      constructor
      · rintro ⟨h1, h2⟩
        exact ⟨by simp [h1], h2⟩
      · rintro ⟨h1, h2⟩
        rcases List.mem_cons.1 h1 with rfl | h3
        · exact absurd hy h2
        · exact ⟨h3, h2⟩
    · rw [show pydedupGo (y :: ys) seen = y :: pydedupGo ys (y :: seen) by
        simp [pydedupGo, hy]]
      constructor
      · intro hx
        rcases List.mem_cons.1 hx with rfl | h3
        · exact ⟨by simp, hy⟩
        · have h4 := (ih (y :: seen)).1 h3
          exact ⟨by simp [h4.1], fun hs => h4.2 (by simp [hs])⟩
      · rintro ⟨h1, h2⟩
        rcases List.mem_cons.1 h1 with rfl | h3
        · simp
        · by_cases hxy : x = y
          · simp [hxy]
          · refine List.mem_cons.2 (Or.inr ((ih (y :: seen)).2 ⟨h3, ?_⟩))
            intro hmem
            rcases List.mem_cons.1 hmem with h5 | h5
            · exact hxy h5
            · exact h2 h5

theorem pydedupGo_nodup : ∀ (l seen : List String), (pydedupGo l seen).Nodup := by
  intro l
  induction l with
  | nil => intro seen; simp [pydedupGo]
  | cons y ys ih =>
    intro seen
    by_cases hy : y ∈ seen
    · rw [show pydedupGo (y :: ys) seen = pydedupGo ys seen by simp [pydedupGo, hy]]
      exact ih seen
    · rw [show pydedupGo (y :: ys) seen = y :: pydedupGo ys (y :: seen) by
        simp [pydedupGo, hy]]
      refine List.nodup_cons.2 ⟨fun hmem => ?_, ih (y :: seen)⟩
      exact ((mem_pydedupGo y ys (y :: seen)).1 hmem).2 (by simp)

theorem pydedup_nodup (l : List String) : (pydedup l).Nodup := pydedupGo_nodup l []

theorem mem_pydedup (x : String) (l : List String) : x ∈ pydedup l ↔ x ∈ l := by
  unfold pydedup
  rw [mem_pydedupGo]
  simp

theorem pydedupGo_eq_self : ∀ (l seen : List String), l.Nodup →
    (∀ x ∈ l, x ∉ seen) → pydedupGo l seen = l := by
  intro l
  induction l with
  | nil => intro seen _ _; rfl
  | cons y ys ih =>
    intro seen hnd hdisj
    rw [show pydedupGo (y :: ys) seen = y :: pydedupGo ys (y :: seen) by
      simp [pydedupGo, hdisj y (by simp)]]
    congr 1
    refine ih (y :: seen) (List.nodup_cons.1 hnd).2 (fun x hx hmem => ?_)
    rcases List.mem_cons.1 hmem with h5 | h5
    · exact (List.nodup_cons.1 hnd).1 (h5 ▸ hx)
    · exact hdisj x (by simp [hx]) h5

theorem pydedup_eq_self {l : List String} (h : l.Nodup) : pydedup l = l :=
  pydedupGo_eq_self l [] h (by simp)

theorem mem_dictInsert {α β : Type} [DecidableEq α] (k : α) (v : β) :
    ∀ (l : List (α × β)) (pr : α × β), pr ∈ dictInsert k v l → pr = (k, v) ∨ pr ∈ l := by
  intro l
  induction l with
  | nil => intro pr hpr; simpa [dictInsert] using hpr
  | cons p rest ih =>
    intro pr hpr
    obtain ⟨k0, v0⟩ := p
    by_cases hk : k0 = k
    · rw [show dictInsert k v ((k0, v0) :: rest) = (k0, v) :: rest by
        simp [dictInsert, hk]] at hpr
      rcases List.mem_cons.1 hpr with rfl | h3
      · exact Or.inl (by rw [hk])
      · exact Or.inr (by simp [h3])
    · rw [show dictInsert k v ((k0, v0) :: rest) = (k0, v0) :: dictInsert k v rest by
        simp [dictInsert, hk]] at hpr
      rcases List.mem_cons.1 hpr with rfl | h3
      · exact Or.inr (by simp)
      · rcases ih pr h3 with h4 | h4
        · exact Or.inl h4
        · exact Or.inr (by simp [h4])

theorem dictInsert_fresh {α β : Type} [DecidableEq α] (k : α) (v : β) :
    ∀ (l : List (α × β)), k ∉ l.map Prod.fst → dictInsert k v l = l ++ [(k, v)] := by
  intro l
  induction l with
  | nil => intro; rfl
  | cons p rest ih =>
    intro h
    obtain ⟨k0, v0⟩ := p
    simp only [List.map_cons, List.mem_cons, not_or] at h
    have hne : ¬ k0 = k := fun he => h.1 he.symm
    rw [show dictInsert k v ((k0, v0) :: rest) = (k0, v0) :: dictInsert k v rest by
      simp only [dictInsert]; rw [if_neg hne]]
    rw [ih h.2]
    simp

/-! ## Helper lemmas: batch_verify and the pipeline folds -/

theorem bv_step_none {s : StrategyM} {ctx : Ctx} {p : String}
    (hv : s.verify p ctx = none) (acc : List (String × ModCheckResult)) :
    bv_step s ctx acc p = acc := by
  simp [bv_step, hv]

theorem bv_step_some {s : StrategyM} {ctx : Ctx} {p : String} {r : ModCheckResult}
    (hv : s.verify p ctx = some r) (acc : List (String × ModCheckResult)) :
    bv_step s ctx acc p = dictInsert p r acc := by
  simp [bv_step, hv]

theorem batch_verify_entry (s : StrategyM) (ctx : Ctx) :
    ∀ (paths : List String) (acc : List (String × ModCheckResult)),
      (∀ q ∈ acc, s.verify q.1 ctx = some q.2) →
      ∀ pr ∈ List.foldl (bv_step s ctx) acc paths,
      s.verify pr.1 ctx = some pr.2 := by
  intro paths
  induction paths with
  | nil => intro acc hacc pr hpr; exact hacc pr hpr
  | cons p rest ih =>
    intro acc hacc pr hpr
    rw [List.foldl_cons] at hpr
    cases hv : s.verify p ctx with
    | none =>
      rw [bv_step_none hv] at hpr
      exact ih acc hacc pr hpr
    | some r =>
      rw [bv_step_some hv] at hpr
      refine ih (dictInsert p r acc) (fun q hq => ?_) pr hpr
      rcases mem_dictInsert p r acc q hq with rfl | h3
      · exact hv
      · exact hacc q h3

theorem batch_verify_mem_entry (s : StrategyM) (ctx : Ctx) (paths : List String) :
    ∀ pr ∈ batch_verify s paths ctx, s.verify pr.1 ctx = some pr.2 :=
  batch_verify_entry s ctx paths [] (by simp)

theorem foldl_batch_eq (s : StrategyM) (ctx : Ctx) :
    ∀ (paths : List String) (acc : List (String × ModCheckResult)),
      paths.Nodup → (∀ p ∈ paths, p ∉ acc.map Prod.fst) →
      List.foldl (bv_step s ctx) acc paths
      = acc ++ paths.filterMap (fun p => (s.verify p ctx).map (fun r => (p, r))) := by
  intro paths
  induction paths with
  | nil => intro acc _ _; simp
  | cons p rest ih =>
    intro acc hnd hfresh
    rw [List.foldl_cons, List.filterMap_cons]
    cases hv : s.verify p ctx with
    | none =>
      rw [bv_step_none hv]
      exact ih acc (List.nodup_cons.1 hnd).2 (fun x hx => hfresh x (by simp [hx]))
    | some r =>
      rw [bv_step_some hv]
      rw [dictInsert_fresh p r acc (hfresh p (by simp))]
      rw [ih (acc ++ [(p, r)]) (List.nodup_cons.1 hnd).2 ?fresh]
      · simp
      case fresh =>
        intro x hx
        simp only [List.map_append, List.mem_append, List.map_cons, List.map_nil,
          List.mem_singleton, not_or]
        exact ⟨hfresh x (by simp [hx]), fun he => (List.nodup_cons.1 hnd).1 (he ▸ hx)⟩

theorem batch_verify_eq (s : StrategyM) (ctx : Ctx) (paths : List String)
    (hnd : paths.Nodup) :
    batch_verify s paths ctx =
      paths.filterMap (fun p => (s.verify p ctx).map (fun r => (p, r))) := by
  unfold batch_verify
  simpa using foldl_batch_eq s ctx paths [] hnd (by simp)

theorem filterMap_keys (s : StrategyM) (ctx : Ctx) (paths : List String) :
    (paths.filterMap (fun p => (s.verify p ctx).map (fun r => (p, r)))).map Prod.fst
      = paths.filter (fun p => (s.verify p ctx).isSome) := by
  induction paths with
  | nil => rfl
  | cons p rest ih =>
    cases hv : s.verify p ctx <;>
      simp [List.filterMap_cons, List.filter_cons, hv, ih]

theorem apply_results_cons (acc : List (String × ModCheckResult) × List String)
    (pr : String × ModCheckResult) (tail : List (String × ModCheckResult)) :
    apply_results acc (pr :: tail) =
      apply_results
        (if pr.2.status = CheckStatus.unknown then acc
         else (dictInsert pr.1 pr.2 acc.1, acc.2.erase pr.1)) tail := by
  by_cases h : pr.2.status = CheckStatus.unknown <;>
    simp [apply_results, h]

theorem apply_results_all_accepted :
    ∀ (entries : List (String × ModCheckResult))
      (fR : List (String × ModCheckResult)) (pend : List String),
      (∀ pr ∈ entries, pr.2.status ≠ CheckStatus.unknown) →
      (∀ pr ∈ entries, pr.1 ∉ fR.map Prod.fst) →
      (entries.map Prod.fst).Nodup →
      apply_results (fR, pend) entries =
        (fR ++ entries, (entries.map Prod.fst).foldl List.erase pend) := by
  intro entries
  induction entries with
  | nil => intro fR pend _ _ _; simp [apply_results]
  | cons pr tail ih =>
    intro fR pend hstat hfresh hknd
    obtain ⟨k, r⟩ := pr
    rw [apply_results_cons]
    rw [if_neg (hstat (k, r) (by simp))]
    simp only
    rw [dictInsert_fresh k r fR (hfresh (k, r) (by simp))]
    rw [ih (fR ++ [(k, r)]) (pend.erase k)
      (fun q hq => hstat q (by simp [hq]))
      ?fresh (by simpa using (List.nodup_cons.1 (by simpa using hknd)).2)]
    · simp
    case fresh =>
      intro q hq
      simp only [List.map_append, List.mem_append, List.map_cons, List.map_nil,
        List.mem_singleton, not_or]
      refine ⟨hfresh q (by simp [hq]), fun he => ?_⟩
      have hk : k ∉ tail.map Prod.fst := (List.nodup_cons.1 (by simpa using hknd)).1
      exact hk (he ▸ List.mem_map_of_mem Prod.fst hq)

theorem apply_results_invariant :
    ∀ (entries : List (String × ModCheckResult))
      (fR : List (String × ModCheckResult)) (pend : List String),
      (entries.map Prod.fst).Nodup →
      (∀ pr ∈ entries, pr.1 ∈ pend) →
      pend.Nodup →
      (∀ k ∈ fR.map Prod.fst, k ∉ pend) →
      (apply_results (fR, pend) entries).1.length +
          (apply_results (fR, pend) entries).2.length = fR.length + pend.length ∧
        (apply_results (fR, pend) entries).2.Nodup ∧
        (∀ k ∈ (apply_results (fR, pend) entries).1.map Prod.fst,
          k ∉ (apply_results (fR, pend) entries).2) ∧
        (∀ x ∈ (apply_results (fR, pend) entries).2, x ∈ pend) := by
  intro entries
  induction entries with
  | nil =>
    intro fR pend _ _ hpnd hdisj
    exact ⟨rfl, hpnd, hdisj, fun x hx => hx⟩
  | cons pr tail ih =>
    intro fR pend hknd hmem hpnd hdisj
    obtain ⟨k, r⟩ := pr
    have hkt : k ∉ tail.map Prod.fst := (List.nodup_cons.1 (by simpa using hknd)).1
    have htnd : (tail.map Prod.fst).Nodup := (List.nodup_cons.1 (by simpa using hknd)).2
    rw [apply_results_cons]
    by_cases hst : r.status = CheckStatus.unknown
    · rw [if_pos hst]
      exact ih fR pend htnd (fun q hq => hmem q (by simp [hq])) hpnd hdisj
    · rw [if_neg hst]
      simp only
      have hk_pend : k ∈ pend := hmem (k, r) (by simp)
      have hk_not_fR : k ∉ fR.map Prod.fst := fun hk => hdisj k hk hk_pend
      rw [dictInsert_fresh k r fR hk_not_fR]
      have htail_mem : ∀ q ∈ tail, q.1 ∈ pend.erase k := by
        intro q hq
        refine (List.mem_erase_of_ne ?_).2 (hmem q (by simp [hq]))
        intro he
        exact hkt (he ▸ List.mem_map_of_mem Prod.fst hq)
      have hdisj' : ∀ k' ∈ (fR ++ [(k, r)]).map Prod.fst, k' ∉ pend.erase k := by
        intro k' hk'
        simp only [List.map_append, List.mem_append, List.map_cons, List.map_nil,
          List.mem_singleton] at hk'
        rcases hk' with h5 | rfl
        · exact fun hmem2 => hdisj k' h5 (List.erase_subset _ _ hmem2)
        · exact hpnd.not_mem_erase
      obtain ⟨hlen, hnd2, hdisj2, hsub⟩ :=
        ih (fR ++ [(k, r)]) (pend.erase k) htnd htail_mem (hpnd.erase k) hdisj'
      refine ⟨?_, hnd2, hdisj2, fun x hx => List.erase_subset _ _ (hsub x hx)⟩
      rw [hlen]
      have hple : 1 ≤ pend.length := List.length_pos.2 (List.ne_nil_of_mem hk_pend)
      rw [List.length_append, List.length_erase_of_mem hk_pend]
      simp only [List.length_cons, List.length_nil]
      omega

theorem apply_results_keeps (fp : String) :
    ∀ (entries : List (String × ModCheckResult))
      (fR : List (String × ModCheckResult)) (pend : List String),
      fp ∈ pend →
      (∀ pr ∈ entries, pr.1 = fp → pr.2.status = CheckStatus.unknown) →
      fp ∈ (apply_results (fR, pend) entries).2 := by
  intro entries
  induction entries with
  | nil => intro fR pend h _; exact h
  | cons pr tail ih =>
    intro fR pend hfp hcond
    obtain ⟨k, r⟩ := pr
    rw [apply_results_cons]
    by_cases hst : r.status = CheckStatus.unknown
    · rw [if_pos hst]
      exact ih fR pend hfp (fun q hq => hcond q (by simp [hq]))
    · rw [if_neg hst]
      simp only
      have hne : fp ≠ k := by
        intro he
        exact hst (hcond (k, r) (by simp) he.symm)
      refine ih _ _ ((List.mem_erase_of_ne hne).2 hfp)
        (fun q hq => hcond q (by simp [hq]))

theorem pipeline_keeps_pending (ctx : Ctx) (fp : String) :
    ∀ (ss : List StrategyM) (acc : List (String × ModCheckResult) × List String),
      (∀ s ∈ ss, ∀ r, s.verify fp ctx = some r → r.status = CheckStatus.unknown) →
      fp ∈ acc.2 → fp ∈ (ss.foldl (pipeline_step ctx) acc).2 := by
  intro ss
  induction ss with
  | nil => intro acc _ h; exact h
  | cons s rest ih =>
    intro acc hcond hfp
    rw [List.foldl_cons]
    by_cases hpe : acc.2 = []
    · rw [show pipeline_step ctx acc s = acc by simp [pipeline_step, hpe]]
      exact ih acc (fun s' hs' => hcond s' (by simp [hs'])) hfp
    · rw [show pipeline_step ctx acc s = apply_results acc (batch_verify s acc.2 ctx) by
        simp [pipeline_step, hpe]]
      refine ih _ (fun s' hs' => hcond s' (by simp [hs'])) ?_
      have hkeep : fp ∈ (apply_results (acc.1, acc.2) (batch_verify s acc.2 ctx)).2 := by
        refine apply_results_keeps fp _ acc.1 acc.2 hfp (fun pr hpr he => ?_)
        have hv := batch_verify_mem_entry s ctx acc.2 pr hpr
        rw [he] at hv
        exact hcond s (by simp) pr.2 hv
      exact hkeep

theorem foldl_erase_self : ∀ (l : List String), l.Nodup → l.foldl List.erase l = [] := by
  intro l
  induction l with
  | nil => intro _; rfl
  | cons x rest ih =>
    intro hnd
    rw [List.foldl_cons, List.erase_cons_head]
    -- after erasing the head, the state and the remaining keys coincide again
    exact ih (List.nodup_cons.1 hnd).2

theorem foldl_pipeline_empty (ctx : Ctx) :
    ∀ (strategies : List StrategyM) (fR : List (String × ModCheckResult)),
      List.foldl (pipeline_step ctx) (fR, []) strategies = (fR, []) := by
  intro strategies
  induction strategies with
  | nil => intro fR; rfl
  | cons s rest ih =>
    intro fR
    rw [List.foldl_cons, show pipeline_step ctx (fR, []) s = (fR, []) by
      simp [pipeline_step]]
    exact ih fR

theorem check_files_len_eq (strategies : List StrategyM) (paths : List String)
    (ctx : Ctx) :
    (check_files strategies paths ctx).length = (pydedup paths).length := by
  suffices h : ∀ (ss : List StrategyM) (acc : List (String × ModCheckResult) × List String),
      acc.2.Nodup → (∀ k ∈ acc.1.map Prod.fst, k ∉ acc.2) →
      (ss.foldl (pipeline_step ctx) acc).1.length +
          (ss.foldl (pipeline_step ctx) acc).2.length = acc.1.length + acc.2.length ∧
        (ss.foldl (pipeline_step ctx) acc).2.Nodup ∧
        (∀ k ∈ (ss.foldl (pipeline_step ctx) acc).1.map Prod.fst,
          k ∉ (ss.foldl (pipeline_step ctx) acc).2) by
    have h2 := (h strategies ([], pydedup paths) (pydedup_nodup paths) (by simp)).1
    unfold check_files
    simp only [List.length_append, List.length_map, List.length_nil] at h2 ⊢
    omega
  intro ss
  induction ss with
  | nil => intro acc h1 h2; exact ⟨rfl, h1, h2⟩
  | cons s rest ih =>
    intro acc h1 h2
    rw [List.foldl_cons]
    by_cases hpe : acc.2 = []
    · rw [show pipeline_step ctx acc s = acc by simp [pipeline_step, hpe]]
      exact ih acc h1 h2
    · rw [show pipeline_step ctx acc s = apply_results acc (batch_verify s acc.2 ctx) by
        simp [pipeline_step, hpe]]
      obtain ⟨fR, pend⟩ := acc
      simp only at h1 h2 hpe ⊢
      have hbv := batch_verify_eq s ctx pend h1
      have hknd : ((batch_verify s pend ctx).map Prod.fst).Nodup := by
        rw [hbv, filterMap_keys]
        exact h1.filter _
      have hmem : ∀ pr ∈ batch_verify s pend ctx, pr.1 ∈ pend := by
        intro pr hpr
        rw [hbv] at hpr
        obtain ⟨p, hp, hmap⟩ := List.mem_filterMap.1 hpr
        cases hv : s.verify p ctx with
        | none => rw [hv] at hmap; simp at hmap
        | some r =>
          rw [hv] at hmap
          simp only [Option.map_some', Option.some.injEq] at hmap
          rw [← hmap]
          exact hp
      obtain ⟨hlen, hnd2, hdisj2, _⟩ :=
        apply_results_invariant (batch_verify s pend ctx) fR pend hknd hmem h1 h2
      obtain ⟨hlen2, hnd3, hdisj3⟩ :=
        ih (apply_results (fR, pend) (batch_verify s pend ctx)) hnd2 hdisj2
      exact ⟨by omega, hnd3, hdisj3⟩

/-! ## Helper lemmas: parsing of empty and letters-only expressions -/

theorem alpha_not_space {c : Char} (h1 : 97 ≤ c.toNat) : pyIsSpaceChar c = false := by
  have : ¬ pyIsSpaceChar c = true := by
    simp only [pyIsSpaceChar, Bool.or_eq_true, decide_eq_true_eq]
    omega
  simpa using this

theorem alpha_not_digit {c : Char} (h1 : 97 ≤ c.toNat) : pyIsDigit c = false := by
  have : ¬ pyIsDigit c = true := by
    simp only [pyIsDigit, Bool.and_eq_true, decide_eq_true_eq]
    omega
  simpa using this

theorem char_ne_of_toNat {c d : Char} (h : c.toNat ≠ d.toNat) : c ≠ d :=
  fun heq => h (by rw [heq])

theorem dropWhile_eq_self_of_all {p : Char → Bool} {l : List Char}
    (h : ∀ c ∈ l, p c = false) : l.dropWhile p = l := by
  cases l with
  | nil => rfl
  | cons c rest => simp [List.dropWhile_cons, h c (by simp)]

theorem pyStrip_eq_self {l : List Char} (h : ∀ c ∈ l, pyIsSpaceChar c = false) :
    pyStrip l = l := by
  unfold pyStrip
  rw [dropWhile_eq_self_of_all h,
    dropWhile_eq_self_of_all (fun c hc => h c (List.mem_reverse.1 hc)),
    List.reverse_reverse]

theorem splitOnChar_no_sep {sep : Char} {l : List Char}
    (h : ∀ c ∈ l, c ≠ sep) : splitOnChar sep l = [l] := by
  induction l with
  | nil => rfl
  | cons c rest ih =>
    simp only [splitOnChar, ih (fun x hx => h x (by simp [hx])),
      if_neg (h c (by simp))]

theorem containsDotX_eq_false {l : List Char} (h : ∀ c ∈ l, c ≠ '.') :
    containsDotX l = false := by
  induction l with
  | nil => rfl
  | cons c rest ih =>
    have hc : decide (c = '.') = false := decide_eq_false (h c (by simp))
    simp only [containsDotX, hc, Bool.false_and, Bool.false_or]
    exact ih (fun x hx => h x (by simp [hx]))

theorem headIs_eq_false {l : List Char} {c : Char} (h : ∀ x ∈ l, x ≠ c) :
    headIs l c = false := by
  cases l with
  | nil => rfl
  | cons x rest => simp [headIs, h x (by simp)]

theorem startsWith2_eq_false {l : List Char} {a b : Char} (h : ∀ x ∈ l, x ≠ a) :
    startsWith2 l a b = false :=
  match l with
  | [] => rfl
  | [_] => rfl
  | x :: _ :: _ => by simp [startsWith2, h x (by simp)]

theorem leadingDigitRun_nil_getD : (leadingDigitRun []).getD 0 = 0 := rfl

theorem mcVersionOfChars_alpha {s : List Char}
    (h : ∀ c ∈ s, 97 ≤ c.toNat ∧ c.toNat ≤ 122) :
    mcVersionOfChars s = ⟨0, 0, 0⟩ := by
  unfold mcVersionOfChars
  rw [pyStrip_eq_self (fun c hc => alpha_not_space (h c hc).1)]
  have key : ∀ (t : List Char), (∀ c ∈ t, 97 ≤ c.toNat ∧ c.toNat ≤ 122) →
      splitOnChar '.' t = [t] ∧ (leadingDigitRun t).getD 0 = 0 := by
    intro t ht
    refine ⟨splitOnChar_no_sep (fun c hc => char_ne_of_toNat (by
      have := (ht c hc).1
      have hdot : ('.' : Char).toNat = 46 := by decide
      omega)), ?_⟩
    cases t with
    | nil => rfl
    | cons c rest =>
      simp [leadingDigitRun, alpha_not_digit (ht c (by simp)).1]
  cases s with
  | nil => rfl
  | cons c rest =>
    by_cases hv : c = 'v' ∨ c = 'V'
    · simp only [if_pos hv]
      have hrest : ∀ x ∈ rest, 97 ≤ x.toNat ∧ x.toNat ≤ 122 :=
        fun x hx => h x (by simp [hx])
      obtain ⟨hsp, hld⟩ := key rest hrest
      simp [hsp, hld, leadingDigitRun_nil_getD]
    · simp only [if_neg hv]
      obtain ⟨hsp, hld⟩ := key (c :: rest) h
      simp [hsp, hld, leadingDigitRun_nil_getD]

theorem vr_parse_alpha {s : List Char} (hne : s ≠ [])
    (h : ∀ c ∈ s, 97 ≤ c.toNat ∧ c.toNat ≤ 122) :
    vr_parse s = ⟨some ⟨0, 0, 0⟩, some ⟨0, 0, 0⟩, true, true⟩ := by
  have hch : ∀ (d : Char), d.toNat < 97 → ∀ x ∈ s, x ≠ d := by
    intro d hd x hx
    exact char_ne_of_toNat (by have := (h x hx).1; omega)
  have hdot : containsDotX s = false :=
    containsDotX_eq_false (hch '.' (by decide))
  have hbr : headIs s '[' = false := headIs_eq_false (hch '[' (by decide))
  have hpar : headIs s '(' = false := headIs_eq_false (hch '(' (by decide))
  have hge : startsWith2 s '>' '=' = false := startsWith2_eq_false (hch '>' (by decide))
  have hgt : headIs s '>' = false := headIs_eq_false (hch '>' (by decide))
  have hle : startsWith2 s '<' '=' = false := startsWith2_eq_false (hch '<' (by decide))
  have hlt : headIs s '<' = false := headIs_eq_false (hch '<' (by decide))
  unfold vr_parse
  rw [if_neg hne, hdot, hbr, hpar, hge, hgt, hle, hlt]
  simp [mcVersionOfChars_alpha h]

theorem contains_exact_zero (v : McVersion) :
    contains ⟨some ⟨0, 0, 0⟩, some ⟨0, 0, 0⟩, true, true⟩ v false = true ↔
      v = ⟨0, 0, 0⟩ := by
  rw [contains_false_eq]
  cases v with
  | mk a b c =>
    show (_ && _) = true ↔ _
    simp [mc_gt, mc_le, mc_lt, mc_eq, McVersion.mk.injEq]
    omega

/-! ## The claims -/

/-- Claim C10: relaxed containment only weakens a range.  For every parsed
range r and version v, contains(v, relaxed=False) implies
contains(v, relaxed=True); and the relaxed check accepts v exactly when
either the strict check does, or both bounds are present and equal (the
range denotes a single exact version) and that version's major and minor
components equal v's, the patch being ignored. -/
theorem c10_relaxed_weakens (r : VersionRange) (v : McVersion) :
    (contains r v false = true → contains r v true = true) ∧
    (contains r v true = true ↔
      (contains r v false = true ∨
        ∃ u, r.min_ver = some u ∧ r.max_ver = some u ∧
          u.major = v.major ∧ u.minor = v.minor)) := by
  rw [contains_false_eq, contains_true_eq]
  constructor
  · intro h
    simp [h]
  · rw [Bool.or_eq_true, relaxed_chk_iff]

/-- Claim C7: the Evaluator applied to an empty evidence list returns
normally (the model is a total function) with status Unknown and support
level Unknown. -/
theorem c7_empty_evidence_unknown (fp fn : String) :
    (evaluate fp [] fn).status = CheckStatus.unknown ∧
    (evaluate fp [] fn).level = SupportLevel.unknown := by
  constructor <;> rfl

/-- Claim C6 (failing input): VersionRange("*") does not behave as a
wildcard.  The star expression falls through to the exact-version branch
and parses as the triple 0.0.0, so containment of 1.20.1 is false where the
claim requires true. -/
theorem c6_star_contains_1_20_1_false :
    contains_str (parse_version_range "*") "1.20.1" false = false ∧
    parse_version_range "*" =
      ⟨some ⟨0, 0, 0⟩, some ⟨0, 0, 0⟩, true, true⟩ := by
  constructor <;> decide

/-- Claim C3 (failing input): on the two whitespace-free bytes 0x61 0x62
the fingerprint of the code differs from the reference MurmurHash2 with the
cascading 3-2-1 tail folding and tail multiply, because hashing.py tests
each tail length with an independent equality and so folds only byte 1 and
never multiplies for a 2-byte tail. -/
theorem c3_tail_folding_diverges :
    compute_curseforge_hash fs_c3 "ab.bin" ≠ murmur2Reference (pyFilterWs [97, 98]) 1 := by
  decide

/-- Claim C4 (failing input): one unreadable file in the batch makes the
online strategy's evidence collection raise (compute_sha1 runs outside the
try blocks), so the whole batch — the readable good.jar included — gets no
evidence, where the claim requires a normal return with zero evidence for
the unreadable file only. -/
theorem c4_unreadable_file_raises :
    online_batch_collect_evidence sha1fn0 mr_lookup0 none fs_c4
      ["good.jar", "bad.jar"] "1.20.1" none false = Except.error () ∧
    online_batch_collect_evidence sha1fn0 mr_lookup0 none fs_c4
      ["good.jar"] "1.20.1" none false = Except.ok [("good.jar", [])] := by
  constructor <;> rfl

/-- Claim C5 (counterexample): containment under the range parsed from the
empty expression is not indeterminate — it reports a match for 1.20.1
(and for every other version), where the claim says a match is never
reported. -/
theorem c5_cex_empty_range_matches :
    contains_str (parse_version_range "") "1.20.1" false = true := by
  decide

/-- Claim C8 (counterexample): two permutations of the same evidence
multiset with a confidence tie between a Confirmed and an Unsupported item
produce different verdicts, because the tie-break is the list position. -/
theorem c8_cex_permutation_changes_verdict :
    List.Perm [ev_conf_tie, ev_unsup10] [ev_unsup10, ev_conf_tie] ∧
    (evaluate "a.jar" [ev_conf_tie, ev_unsup10] "a.jar").level ≠
      (evaluate "a.jar" [ev_unsup10, ev_conf_tie] "a.jar").level := by
  constructor
  · exact List.Perm.swap ev_unsup10 ev_conf_tie []
  · decide

/-- Claim C9 (counterexample): with a duplicated artifact path the pipeline
returns fewer verdicts than input paths — the pending collection is a set,
so the two occurrences collapse into one Unknown verdict. -/
theorem c9_cex_duplicate_paths_collapse :
    (check_files [noneStrat] ["a.jar", "a.jar"] ctx0).length ≠
      (["a.jar", "a.jar"] : List String).length := by
  decide

/-- Claim C1 (counterexample): the pipeline's output differs from the
spec-described run-all-strategies-merge-then-evaluate pipeline.  The first
strategy's Confirmed verdict (confidence 0.5) is accepted and the second
strategy — whose Unsupported evidence has higher confidence 0.6 and would
win the merged evaluation — is never consulted for that artifact. -/
theorem c1_cex_shortcircuit_differs_from_merge :
    check_files [strat1_c1, strat2_c1] ["a.jar"] ctx0 ≠
      spec_checkBatch [strat1_c1, strat2_c1] ["a.jar"] ctx0 := by
  decide

/-- Claim C1 (amended): check_files short-circuits.  Whenever the first
strategy resolves every (distinct) artifact of the batch with a non-Unknown
result, the pipeline's output is exactly that strategy's batch_verify
results — the remaining strategies are never consulted, no evidence is
merged across strategies, and the Evaluator is not involved. -/
theorem c1_amended_first_strategy_shortcircuits (s1 : StrategyM)
    (rest : List StrategyM) (paths : List String) (ctx : Ctx)
    (hall : acceptsAll s1 (pydedup paths) ctx = true) :
    check_files (s1 :: rest) paths ctx =
      (batch_verify s1 (pydedup paths) ctx).map Prod.snd := by
  have hnd : (pydedup paths).Nodup := pydedup_nodup paths
  have hsome : ∀ p ∈ pydedup paths, (s1.verify p ctx).isSome = true := by
    intro p hp
    have hall2 := List.all_eq_true.1 hall p hp
    cases hv : s1.verify p ctx with
    | none => rw [hv] at hall2; simp at hall2
    | some r => simp
  have hstat : ∀ pr ∈ batch_verify s1 (pydedup paths) ctx,
      pr.2.status ≠ CheckStatus.unknown := by
    intro pr hpr
    have hv := batch_verify_mem_entry s1 ctx (pydedup paths) pr hpr
    have hpmem : pr.1 ∈ pydedup paths := by
      rw [batch_verify_eq s1 ctx (pydedup paths) hnd] at hpr
      obtain ⟨p, hp, hmap⟩ := List.mem_filterMap.1 hpr
      cases hv2 : s1.verify p ctx with
      | none => rw [hv2] at hmap; simp at hmap
      | some r =>
        rw [hv2] at hmap
        simp only [Option.map_some', Option.some.injEq] at hmap
        rw [← hmap]
        exact hp
    have hall2 := List.all_eq_true.1 hall pr.1 hpmem
    rw [hv] at hall2
    exact of_decide_eq_true hall2
  have hkeys : (batch_verify s1 (pydedup paths) ctx).map Prod.fst = pydedup paths := by
    rw [batch_verify_eq s1 ctx (pydedup paths) hnd, filterMap_keys]
    exact List.filter_eq_self.2 hsome
  have hfold : List.foldl (pipeline_step ctx) ([], pydedup paths) (s1 :: rest) =
      (batch_verify s1 (pydedup paths) ctx, []) := by
    rw [List.foldl_cons]
    by_cases hpe : pydedup paths = []
    · rw [show pipeline_step ctx ([], pydedup paths) s1 = ([], pydedup paths) by
        simp [pipeline_step, hpe]]
      rw [show (([], pydedup paths) :
          List (String × ModCheckResult) × List String) = ([], []) by rw [hpe]]
      rw [foldl_pipeline_empty ctx rest []]
      rw [show batch_verify s1 (pydedup paths) ctx = [] by rw [hpe]; rfl]
    · rw [show pipeline_step ctx ([], pydedup paths) s1 =
          apply_results ([], pydedup paths) (batch_verify s1 (pydedup paths) ctx) by
        simp [pipeline_step, hpe]]
      rw [apply_results_all_accepted (batch_verify s1 (pydedup paths) ctx) []
        (pydedup paths) hstat (by simp) (by rw [hkeys]; exact hnd)]
      rw [hkeys, foldl_erase_self (pydedup paths) hnd]
      rw [foldl_pipeline_empty ctx rest]
      simp
  unfold check_files
  simp only [hfold, List.map_nil, List.append_nil]

/-- Claim C1 (witness): the short-circuit theorem at a concrete two-strategy
pipeline whose first strategy confirms the single artifact. -/
theorem c1_amended_witness :
    check_files [strat1_c1, strat2_c1] ["a.jar"] ctx0 =
      (batch_verify strat1_c1 (pydedup ["a.jar"]) ctx0).map Prod.snd :=
  c1_amended_first_strategy_shortcircuits strat1_c1 [strat2_c1] ["a.jar"] ctx0 (by decide)

/-- Claim C9 (amended): on a duplicate-free input list the pipeline returns
exactly one verdict per artifact (output length equals input length), and an
artifact that no configured strategy resolves with a non-Unknown result is
not dropped: its Unknown verdict, reason all_strategies_failed, is in the
output. -/
theorem c9_amended_nodup_cardinality (strategies : List StrategyM)
    (paths : List String) (ctx : Ctx) (hnd : paths.Nodup) :
    (check_files strategies paths ctx).length = paths.length ∧
    (∀ fp ∈ paths,
      (∀ s ∈ strategies, ∀ r, s.verify fp ctx = some r →
        r.status = CheckStatus.unknown) →
      unknown_result fp ∈ check_files strategies paths ctx) := by
  constructor
  · rw [check_files_len_eq, pydedup_eq_self hnd]
  · intro fp hfp hcond
    have hpend : fp ∈ (strategies.foldl (pipeline_step ctx) ([], pydedup paths)).2 :=
      pipeline_keeps_pending ctx fp strategies ([], pydedup paths) hcond
        (by simpa using (mem_pydedup fp paths).2 hfp)
    unfold check_files
    exact List.mem_append_right _ (List.mem_map_of_mem unknown_result hpend)

/-- Claim C9 (witness): the amended cardinality at a concrete two-file batch
that no strategy resolves. -/
theorem c9_amended_witness :
    (check_files [noneStrat] ["a.jar", "b.jar"] ctx0).length =
      (["a.jar", "b.jar"] : List String).length :=
  (c9_amended_nodup_cardinality [noneStrat] ["a.jar", "b.jar"] ctx0 (by decide)).1

/-- Claim C2: for every non-empty evidence list the verdict's support level,
source and reason are those of the first maximum-confidence item (the head
of the stable confidence-descending sort), the full input evidence list is
retained untruncated, and in particular Confirmed@1.0 with Possible@0.6
yields Confirmed in either input order. -/
theorem c2_top_confidence_wins :
    (∀ (fp fn : String) (e : Evidence) (rest : List Evidence),
      (evaluate fp (e :: rest) fn).level = (firstMaxD e rest).level ∧
      (evaluate fp (e :: rest) fn).source = (firstMaxD e rest).source ∧
      (evaluate fp (e :: rest) fn).reason = (firstMaxD e rest).reason ∧
      (evaluate fp (e :: rest) fn).evidence = e :: rest) ∧
    (evaluate "a.jar" [ev_confirmed10, ev_possible06] "a.jar").level =
      SupportLevel.confirmed ∧
    (evaluate "a.jar" [ev_possible06, ev_confirmed10] "a.jar").level =
      SupportLevel.confirmed := by
  refine ⟨fun fp fn e rest => ?_, by decide, by decide⟩
  rw [evaluate_cons]
  exact ⟨rfl, rfl, rfl, rfl⟩

/-- Claim C8 (amended): the Evaluator is deterministic in the evidence
multiset provided the maximum-confidence item is unique in it; with that
proviso two permutations of the same evidence list get the same status,
support level, source and reason.  (Without it the original claim fails:
see the counterexample, where a confidence tie is broken by list order.) -/
theorem c8_amended_unique_max_deterministic (fp fn : String) (l1 l2 : List Evidence)
    (hperm : List.Perm l1 l2)
    (huniq : ∀ e1 ∈ l1, ∀ e2 ∈ l1,
      (∀ x ∈ l1, x.confidence ≤ e1.confidence) →
      (∀ x ∈ l1, x.confidence ≤ e2.confidence) → e1 = e2) :
    (evaluate fp l1 fn).status = (evaluate fp l2 fn).status ∧
    (evaluate fp l1 fn).level = (evaluate fp l2 fn).level ∧
    (evaluate fp l1 fn).source = (evaluate fp l2 fn).source ∧
    (evaluate fp l1 fn).reason = (evaluate fp l2 fn).reason := by
  cases l1 with
  | nil =>
    have h2 : l2 = [] := hperm.symm.eq_nil
    subst h2
    exact ⟨rfl, rfl, rfl, rfl⟩
  | cons a as =>
    cases l2 with
    | nil => exact absurd hperm.length_eq (by simp)
    | cons b bs =>
      have h1 := firstMaxD_mem a as
      have hb1 := firstMaxD_le a as
      have h2 : firstMaxD b bs ∈ a :: as := hperm.mem_iff.mpr (firstMaxD_mem b bs)
      have hb2 : ∀ x ∈ a :: as, x.confidence ≤ (firstMaxD b bs).confidence :=
        fun x hx => firstMaxD_le b bs x (hperm.subset hx)
      have heq : firstMaxD a as = firstMaxD b bs := huniq _ h1 _ h2 hb1 hb2
      rw [evaluate_cons, evaluate_cons, heq]
      exact ⟨rfl, rfl, rfl, rfl⟩

/-- Claim C5 (amended): VersionRange parsing and containment are total (the
model never leaves Except), but the result is not indeterminate.  An empty
expression parses with no bounds, so contains answers true for every
version; a malformed letters-only expression falls through to the exact
branch, parses numerically to 0.0.0, and contains answers true exactly for
versions whose triple is (0,0,0) — so a malformed constraint can produce
false negatives through the exact-match fallback. -/
theorem c5_amended_empty_and_malformed (s : String) (v : McVersion)
    (halpha : ∀ c ∈ s.data, 97 ≤ c.toNat ∧ c.toNat ≤ 122) :
    contains (parse_version_range "") v false = true ∧
    (s ≠ "" →
      (contains (parse_version_range s) v false = true ↔ v = ⟨0, 0, 0⟩)) := by
  refine ⟨rfl, fun hne => ?_⟩
  have hdata : s.data ≠ [] := by
    intro hd
    apply hne
    cases s with
    | mk l =>
      have hl : l = [] := hd
      subst hl
      rfl
  have hstrip : pyStrip s.data = s.data :=
    pyStrip_eq_self (fun c hc => alpha_not_space (halpha c hc).1)
  rw [show parse_version_range s = vr_parse (pyStrip s.data) from rfl, hstrip,
    vr_parse_alpha hdata halpha]
  exact contains_exact_zero v

/-- Claim C5 (witness): the amended behaviour at the malformed expression
abc and the version 1.20.1. -/
theorem c5_amended_witness :
    contains (parse_version_range "") ⟨1, 20, 1⟩ false = true ∧
    ("abc" ≠ "" →
      (contains (parse_version_range "abc") ⟨1, 20, 1⟩ false = true ↔
        (⟨1, 20, 1⟩ : McVersion) = ⟨0, 0, 0⟩)) :=
  c5_amended_empty_and_malformed "abc" ⟨1, 20, 1⟩ (by decide)

/-- Claim C8 (witness): the amended determinism at a concrete pair of
permuted lists whose maximum-confidence item is unique. -/
theorem c8_amended_witness :
    (evaluate "a.jar" [ev_confirmed10, ev_possible06] "a.jar").status =
      (evaluate "a.jar" [ev_possible06, ev_confirmed10] "a.jar").status ∧
    (evaluate "a.jar" [ev_confirmed10, ev_possible06] "a.jar").level =
      (evaluate "a.jar" [ev_possible06, ev_confirmed10] "a.jar").level ∧
    (evaluate "a.jar" [ev_confirmed10, ev_possible06] "a.jar").source =
      (evaluate "a.jar" [ev_possible06, ev_confirmed10] "a.jar").source ∧
    (evaluate "a.jar" [ev_confirmed10, ev_possible06] "a.jar").reason =
      (evaluate "a.jar" [ev_possible06, ev_confirmed10] "a.jar").reason :=
  c8_amended_unique_max_deterministic "a.jar" "a.jar"
    [ev_confirmed10, ev_possible06] [ev_possible06, ev_confirmed10]
    (List.Perm.swap ev_possible06 ev_confirmed10 []) (by decide)

end ModCompat
